import Mathlib

/-!
Shallow embedding of the Webstory backend core: the Redis-backed cache
facade (getOrSet, FIFO section lists), the article fetcher, the AI
commentary worker's error handling, the Groq key-pool load balancer and
the per-section threshold gate.  Each definition is translated from the
corresponding JavaScript source; theorems settle the frozen claims.
-/

namespace Webstory

/-! ## Cache state: key-value entries and Redis lists, as association lists -/

/-- The string key-value part of the cache (Redis string keys). -/
abbrev KV := List (String × String)

/-- Source `redis.get`: first binding for the key, if any. -/
def kvGet (kv : KV) (k : String) : Option String :=
  (kv.find? (fun p => p.1 == k)).map (fun p => p.2)

/-- Source `redis.del`: drop every binding for the key. -/
def kvDel (kv : KV) (k : String) : KV :=
  kv.filter (fun p => p.1 != k)

/-- Source `redis.set` / `redis.setex` (TTL not modelled): bind the key. -/
def kvSet (kv : KV) (k v : String) : KV :=
  (k, v) :: kvDel kv k

/-- The list part of the cache (Redis list keys). -/
abbrev ListStore := List (String × List String)

/-- Source `redis.lrange key 0 -1`: the whole list stored at the key (empty if absent). -/
def lsGet (ls : ListStore) (k : String) : List String :=
  ((ls.find? (fun p => p.1 == k)).map (fun p => p.2)).getD []

/-- Replace the list stored at a key. -/
def lsSet (ls : ListStore) (k : String) (v : List String) : ListStore :=
  (k, v) :: ls.filter (fun p => p.1 != k)

/-- Combined cache state: string keys and list keys. -/
structure CacheState where
  kv : KV
  lists : ListStore

/-! ## CacheService FIFO section lists (src/unnamed/part_008) -/

/-- The Redis key of a section's FIFO article-id list. -/
def sectionListKey (sect : String) : String :=
  "section:" ++ sect ++ ":articles"

/-- Result shape of `manageSectionCacheFIFO` (the `{added, removed}` object),
together with the updated cache state. -/
structure FifoResult where
  state : CacheState
  added : Nat
  removed : Nat

/-- Source `manageSectionCacheFIFO(section, newArticleIds, maxArticles)`:
right-push the new ids, and when the list length exceeds `maxArticles`
left-trim the oldest ids and delete their `article:{id}` keys. -/
def manageSectionCacheFIFO (st : CacheState) (sect : String)
    (newArticleIds : List String) (maxArticles : Nat) : FifoResult :=
  if newArticleIds.isEmpty then ⟨st, 0, 0⟩
  else
    let key := sectionListKey sect
    let afterPush := lsGet st.lists key ++ newArticleIds
    let totalCount := afterPush.length
    if maxArticles < totalCount then
      let toRemove := totalCount - maxArticles
      let oldestIds := afterPush.take toRemove
      let trimmed := afterPush.drop toRemove
      let kv := oldestIds.foldl (fun kv i => kvDel kv ("article:" ++ i)) st.kv
      ⟨⟨kv, lsSet st.lists key trimmed⟩, newArticleIds.length, oldestIds.length⟩
    else
      ⟨⟨st.kv, lsSet st.lists key afterPush⟩, newArticleIds.length, 0⟩

/-- The ids a `manageSectionCacheFIFO` call evicts (the `oldestIds` it deletes
`article:{id}` keys for), recomputed from the pre-state. -/
def fifoEvicted (st : CacheState) (sect : String)
    (newArticleIds : List String) (maxArticles : Nat) : List String :=
  if newArticleIds.isEmpty then []
  else
    let afterPush := lsGet st.lists (sectionListKey sect) ++ newArticleIds
    if maxArticles < afterPush.length then
      afterPush.take (afterPush.length - maxArticles)
    else []

/-- Source `getSectionArticles(section, count)`: last `count` list entries, newest
first.  `lrange key (-count) -1` returns the whole list when `count = 0`
(the start index `-0` is `0`). -/
def getSectionArticles (st : CacheState) (sect : String) (count : Nat) : List String :=
  let l := lsGet st.lists (sectionListKey sect)
  (if count = 0 then l else l.drop (l.length - count)).reverse

/-- A sequence of `manageSectionCacheFIFO` calls for one section and cap. -/
def runFIFO (st : CacheState) (sect : String) (maxArticles : Nat)
    (calls : List (List String)) : CacheState :=
  calls.foldl (fun s ids => (manageSectionCacheFIFO s sect ids maxArticles).state) st

/-! ## CacheService.getOrSet (src/unnamed/part_009)

The cache layer and the fetch function are oracles: `getR` is what
`redis.get` does (`.error` = the cache layer throws, `.ok none` = miss,
`.ok (some s)` = hit), `fetchFn i` is the outcome of the `i`-th invocation
of the fetch function (`.ok none` models a null/undefined result, which
is returned without caching), and `setexR` is what `redis.setex` does.
`fetchCalls` counts how many times the fetch function was invoked. -/

structure GetOrSetRun where
  result : Except String (Option String)
  fetchCalls : Nat

/-- The outer `catch` block of `getOrSet`: run the fetch function directly;
its error, if any, is re-thrown.  `n` is the invocation index. -/
def getOrSetCatch (fetchFn : Nat → Except String (Option String)) (n : Nat) : GetOrSetRun :=
  match fetchFn n with
  | .ok v => ⟨.ok v, n + 1⟩
  | .error e => ⟨.error e, n + 1⟩

/-- Source `getOrSet(key, fetchFunction, ttl)`: cached value if present, else fetch
and cache.  Any error thrown inside the `try` (cache get, the fetch itself,
or the cache write) lands in the catch block, which invokes the fetch
function (again). -/
def getOrSet (getR : Except String (Option String))
    (fetchFn : Nat → Except String (Option String))
    (setexR : Except String Unit) : GetOrSetRun :=
  match getR with
  | .ok (some cached) => ⟨.ok (some cached), 0⟩
  | .ok none =>
    match fetchFn 0 with
    | .ok (some freshData) =>
      match setexR with
      | .ok _ => ⟨.ok (some freshData), 1⟩
      | .error _ => getOrSetCatch fetchFn 1
    | .ok none => ⟨.ok none, 1⟩
    | .error _ => getOrSetCatch fetchFn 1
  | .error _ => getOrSetCatch fetchFn 0

/-! ## Article fetcher (src/services/db/sectionArticleService.js, ArticleFetcherService) -/

/-- A raw upstream item as the fetcher sees it after normalization
(`rid` is `rawArticle.id`, possibly empty). -/
structure RawArticle where
  rid : String
  title : String
  abstract : String
  url : String
  deriving DecidableEq

/-- A document in the article store (Mongo `articles` collection).  An empty
`aiCommentary` stands for a missing/null field. -/
structure StoredArticle where
  aid : String
  title : String
  abstract : String
  url : String
  sect : String
  aiCommentary : String
  deriving DecidableEq

/-- Source `Article.findOne` keyed on url. -/
def findOneByUrl (store : List StoredArticle) (url : String) : Option StoredArticle :=
  store.find? (fun a => a.url == url)

/-- Source `Article.findOneAndUpdate` with upsert, keyed on url: replace the document
with this url, or append it. -/
def upsertByUrl (store : List StoredArticle) (a : StoredArticle) : List StoredArticle :=
  if store.any (fun b => b.url == a.url) then
    store.map (fun b => if b.url == a.url then a else b)
  else store ++ [a]

/-- The complete article document the fetcher builds before saving
(`id: rawArticle.id || rawArticle.url`, commentary included). -/
def mkCompleteArticle (raw : RawArticle) (sect commentary : String) : StoredArticle :=
  { aid := if raw.rid = "" then raw.url else raw.rid
    title := raw.title
    abstract := raw.abstract
    url := raw.url
    sect := sect
    aiCommentary := commentary }

/-- Store plus the list of documents the fetcher has upserted so far. -/
structure FetchState where
  store : List StoredArticle
  writes : List StoredArticle

/-- Steps 3-5 for one raw item: generate commentary (the oracle `gen` returns
`none` when `generateGroqCommentary` throws), skip on a falsy result, else
upsert the complete article. -/
def generateAndSave (gen : RawArticle → Option String) (sect : String)
    (st : FetchState) (raw : RawArticle) : FetchState :=
  match gen raw with
  | none => st
  | some commentary =>
    if commentary = "" then st
    else
      let completeArticle := mkCompleteArticle raw sect commentary
      ⟨upsertByUrl st.store completeArticle, st.writes ++ [completeArticle]⟩

/-- The per-item loop body of `fetchAndProcessSection`: skip when the url is
already stored with commentary, else generate and save. -/
def processRawArticle (gen : RawArticle → Option String) (sect : String)
    (st : FetchState) (raw : RawArticle) : FetchState :=
  match findOneByUrl st.store raw.url with
  | some exist =>
    if exist.aiCommentary = "" then generateAndSave gen sect st raw else st
  | none => generateAndSave gen sect st raw

/-- Source `fetchAndProcessSection`: process the first `articlesToProcess` raw items
(the Redis caching after the threshold check does not touch the store and is
not modelled here). -/
def fetchAndProcessSection (gen : RawArticle → Option String) (sect : String)
    (store : List StoredArticle) (rawArticles : List RawArticle)
    (articlesToProcess : Nat) : FetchState :=
  (rawArticles.take articlesToProcess).foldl (processRawArticle gen sect) ⟨store, []⟩

/-! ## AI service fallback and the worker's catch block
(src/services/aiService.js, src/unnamed/part_012) -/

/-- Substring test on char lists, mirroring JavaScript `String.includes`. -/
def firstMatches : List Char → List Char → Bool
  | _, [] => true
  | [], _ :: _ => false
  | a :: as, b :: bs => a == b && firstMatches as bs

/-- Whether `sub` occurs contiguously in `l`. -/
def containsSub : List Char → List Char → Bool
  | [], sub => firstMatches [] sub
  | l@(_ :: t), sub => firstMatches l sub || containsSub t sub

/-- JavaScript `s.includes(sub)`. -/
def strIncludes (s sub : String) : Bool :=
  containsSub s.toList sub.toList

/-- JavaScript `s.startsWith(pre)`. -/
def strStartsWith (s pre : String) : Bool :=
  firstMatches s.toList pre.toList

/-- Source `getFallbackCommentary(article)`: the deterministic three-section template;
only the category (`article.section || article.category || 'news'`) is
interpolated. -/
def getFallbackCommentary (sect : String) : String :=
  let category := if sect = "" then "news" else sect
  "Key Points\nThis " ++ category ++
    " development represents a significant moment in current events. The situation has drawn attention from experts and stakeholders across multiple sectors, highlighting its importance in the broader context.\n\nImpact Analysis\nThe immediate implications of this development could affect policy decisions, market dynamics, and public discourse. Similar situations in the past have shown that early responses often set the tone for longer-term outcomes and strategic positioning.\n\nFuture Outlook\nAs this situation continues to evolve, multiple factors will influence the trajectory. Stakeholders will be monitoring developments closely, and additional information is expected to provide clarity on potential paths forward and their broader significance."

/-- The `updateArticleById` payload of the fallback path. -/
structure StoreUpdate where
  articleId : String
  aiCommentary : String
  commentarySource : String

/-- The object the job handler returns. -/
structure JobResult where
  success : Bool
  articleId : String
  commentary : String
  source : String
  error : String

/-- The cache/store writes performed by the fallback path. -/
structure FallbackEffects where
  storeWrite : Option StoreUpdate
  cacheWrite : Option (String × String)

/-- The catch block of the `ai-commentary` worker handler: re-throw rate-limit
errors, write the fallback (store for non-`temp-` ids, cache always) when
attempts are exhausted, else re-throw.  `.error` models a thrown error. -/
def workerCatchBlock (articleId sect errMsg : String)
    (attemptsMade attempts : Nat) : Except String (JobResult × FallbackEffects) :=
  if strIncludes errMsg "RATE_LIMIT" then
    .error "Rate limit hit - will retry"
  else if attempts - 1 ≤ attemptsMade then
    let fallback := getFallbackCommentary sect
    .ok ({ success := false
           articleId := articleId
           commentary := fallback.take 100 ++ "..."
           source := "fallback"
           error := errMsg },
         { storeWrite :=
             if strStartsWith articleId "temp-" then none
             else some ⟨articleId, fallback, "fallback"⟩
           cacheWrite := some ("commentary:" ++ articleId, fallback) })
  else .error errMsg

/-! ## Groq key-pool load balancer (src/services/groqLoadBalancer.js) -/

/-- One pooled API credential (`resetTime` and `lastError` not modelled). -/
structure GroqClient where
  id : Nat
  tokensUsed : Nat
  dailyLimit : Nat
  isAvailable : Bool
  deriving DecidableEq

/-- Balancer state: the client pool and the round-robin cursor. -/
structure GroqBalancer where
  clients : List GroqClient
  currentIndex : Nat
  deriving DecidableEq

/-- The availability check of `getClient`:
`client.isAvailable && client.tokensUsed < client.dailyLimit - 5000`. -/
def clientEligible (c : GroqClient) : Bool :=
  c.isAvailable && decide (c.tokensUsed < c.dailyLimit - 5000)

/-- The `do`-`while` of `getClient`: try `fuel` successive indices starting at
`idx` (wrapping modulo the pool size), returning the first eligible index. -/
def findEligibleFrom (clients : List GroqClient) (idx : Nat) : Nat → Option Nat
  | 0 => none
  | fuel + 1 =>
    match clients[idx]? with
    | none => none
    | some c =>
      if clientEligible c then some idx
      else findEligibleFrom clients ((idx + 1) % clients.length) fuel

/-- Source `getClient()`: round-robin scan of the whole pool from `currentIndex`;
returns `(selected index, new currentIndex)`.  When every client is skipped
the source returns `clients[0]` with the cursor back at its start value. -/
def getClient (b : GroqBalancer) : Nat × Nat :=
  match findEligibleFrom b.clients b.currentIndex b.clients.length with
  | some i => (i, (i + 1) % b.clients.length)
  | none => (0, b.currentIndex)

/-- What the provider does on one HTTP call.  A `success` carries
`response.usage?.total_tokens` (0 models a missing usage field). -/
inductive CallOutcome where
  | success (totalTokens : Nat)
  | rateLimited (msg : String)
  | otherFailure (msg : String)
  deriving DecidableEq

/-- Result of `createChatCompletion`: a response served by the client with the
given id, or a thrown error. -/
inductive DispatchResult where
  | ok (clientId : Nat)
  | error (msg : String)
  deriving DecidableEq

/-- Update the client at an index, when it exists. -/
def setClient (clients : List GroqClient) (i : Nat)
    (f : GroqClient → GroqClient) : List GroqClient :=
  match clients[i]? with
  | some c => clients.set i (f c)
  | none => clients

/-- Source `createChatCompletion(params)`: pick a client, call the provider
(`first`), track `usage?.total_tokens || 600` on success, and on a rate-limit
error mark the client unavailable and retry once (`retry`, untracked) with the
next selection, surfacing `RATE_LIMIT_ALL_KEYS` when that selection is the
same client. -/
def createChatCompletion (b : GroqBalancer) (first retry : CallOutcome) :
    GroqBalancer × DispatchResult :=
  let p := getClient b
  match b.clients[p.1]? with
  | none =>
    ({ clients := b.clients, currentIndex := p.2 },
     .error "Cannot read properties of undefined")
  | some client =>
    match first with
    | .success t =>
      let tokensUsed := if t = 0 then 600 else t
      ({ clients := setClient b.clients p.1
           (fun c => { c with tokensUsed := c.tokensUsed + tokensUsed })
         currentIndex := p.2 },
       .ok client.id)
    | .rateLimited _ =>
      let marked := setClient b.clients p.1 (fun c => { c with isAvailable := false })
      let q := getClient { clients := marked, currentIndex := p.2 }
      match marked[q.1]? with
      | none =>
        ({ clients := marked, currentIndex := q.2 },
         .error "Cannot read properties of undefined")
      | some nextClient =>
        if nextClient.id = client.id then
          ({ clients := marked, currentIndex := q.2 },
           .error "RATE_LIMIT_ALL_KEYS: All API keys have hit their rate limits")
        else
          match retry with
          | .success _ => ({ clients := marked, currentIndex := q.2 }, .ok nextClient.id)
          | .rateLimited m => ({ clients := marked, currentIndex := q.2 }, .error m)
          | .otherFailure m => ({ clients := marked, currentIndex := q.2 }, .error m)
    | .otherFailure m => ({ clients := b.clients, currentIndex := p.2 }, .error m)

/-- The comparison the rate-limit failover of `createChatCompletion` makes:
whether, after quarantining the selected client, the next selection returns
a client with the same id. -/
def failoverSameId (b : GroqBalancer) : Bool :=
  let p := getClient b
  match b.clients[p.1]? with
  | none => false
  | some client =>
    let marked := setClient b.clients p.1 (fun c => { c with isAvailable := false })
    let q := getClient { clients := marked, currentIndex := p.2 }
    match marked[q.1]? with
    | none => false
    | some nextClient => nextClient.id == client.id

/-- A sequence of dispatches: each step is the pair of provider outcomes for
the primary call and the (possible) failover retry. -/
def runDispatches (b : GroqBalancer) (steps : List (CallOutcome × CallOutcome)) : GroqBalancer :=
  steps.foldl (fun s step => (createChatCompletion s step.1 step.2).1) b

/-- Hypotheses of the amended quota claim for one step: a successful primary
call finds some eligible client in the pool and its tracked usage is within
the 5000-token selection margin. -/
def StepSafe (b : GroqBalancer) (step : CallOutcome × CallOutcome) : Prop :=
  match step.1 with
  | .success t => (∃ c ∈ b.clients, clientEligible c = true) ∧ (if t = 0 then 600 else t) ≤ 5000
  | .rateLimited _ => True
  | .otherFailure _ => True

/-- Predicate `StepSafe` holding at every intermediate balancer state of a run. -/
def SafeRun : GroqBalancer → List (CallOutcome × CallOutcome) → Prop
  | _, [] => True
  | b, step :: rest => StepSafe b step ∧ SafeRun (createChatCompletion b step.1 step.2).1 rest

/-- The eligibility rule exactly as the spec words it: skip when unavailable
or `tokensUsedToday + reservedQuantum ≥ dailyLimit − safetyBuffer` with
`reservedQuantum = 600` and `safetyBuffer = 1000`. -/
def specEligible (c : GroqClient) : Bool :=
  c.isAvailable && decide (c.tokensUsed + 600 < c.dailyLimit - 1000)

/-! ## Threshold gate (src/services/db/thresholdService.js) -/

/-- The fixed nine-section list. -/
def SECTIONS : List String :=
  ["world", "us", "politics", "business",
   "technology", "health", "sports", "entertainment", "finance"]

/-- Minimum enriched articles per section before caching. -/
def THRESHOLD_PER_SECTION : Nat := 8

/-- One step of the `$group` stage: bump the count of a section. -/
def bumpCount : List (String × Nat) → String → List (String × Nat)
  | [], s => [(s, 1)]
  | (t, k) :: rest, s =>
    if t == s then (t, k + 1) :: rest else (t, k) :: bumpCount rest s

/-- The aggregation pipeline: keep articles whose `aiCommentary` exists and is
non-empty, then group by section and count. -/
def aggregateCounts (articles : List StoredArticle) : List (String × Nat) :=
  (articles.filter (fun a => a.aiCommentary != "")).foldl (fun acc a => bumpCount acc a.sect) []

/-- Source `this.sectionCounts[section] || 0`. -/
def lookupCount (counts : List (String × Nat)) (s : String) : Nat :=
  ((counts.find? (fun p => p.1 == s)).map (fun p => p.2)).getD 0

/-- One row of the per-section status array. -/
structure SectionStatus where
  sect : String
  count : Nat
  threshold : Nat
  met : Bool

/-- The object `checkThreshold()` resolves with. -/
structure ThresholdStatus where
  thresholdMet : Bool
  sections : List SectionStatus
  total : Nat

/-- Source `checkThreshold()`: per-section enriched counts (0 when the section is
absent from the aggregate), `met = count ≥ 8`, `thresholdMet = all met`. -/
def checkThreshold (articles : List StoredArticle) : ThresholdStatus :=
  let counts := aggregateCounts articles
  let status := SECTIONS.map (fun s =>
    let count := lookupCount counts s
    { sect := s
      count := count
      threshold := THRESHOLD_PER_SECTION
      met := decide (THRESHOLD_PER_SECTION ≤ count) : SectionStatus })
  { thresholdMet := status.all (fun s => s.met)
    sections := status
    total := (counts.map (fun p => p.2)).sum }

/-! ## Helper lemmas -/

theorem lsGet_lsSet (ls : ListStore) (k : String) (v : List String) :
    lsGet (lsSet ls k v) k = v := by
  simp [lsGet, lsSet]

theorem kvGet_kvDel_self (kv : KV) (k : String) :
    kvGet (kvDel kv k) k = none := by
  simp [kvGet, kvDel, List.find?_eq_none]

theorem kvGet_kvDel_of_none (kv : KV) (k k' : String) (h : kvGet kv k = none) :
    kvGet (kvDel kv k') k = none := by
  simp [kvGet, kvDel, List.find?_eq_none] at h ⊢
  intro a b hmem _
  exact h a b hmem

theorem kvGet_foldl_del_of_none (l : List String) (kv : KV) (k : String)
    (h : kvGet kv k = none) :
    kvGet (l.foldl (fun kv j => kvDel kv ("article:" ++ j)) kv) k = none := by
  induction l generalizing kv with
  | nil => exact h
  | cons j l ih => exact ih _ (kvGet_kvDel_of_none _ _ _ h)

theorem kvGet_foldl_del_mem (l : List String) (i : String) :
    i ∈ l → ∀ kv : KV,
      kvGet (l.foldl (fun kv j => kvDel kv ("article:" ++ j)) kv) ("article:" ++ i) = none := by
  induction l with
  | nil => intro h; cases h
  | cons j l ih =>
    intro h kv
    simp only [List.foldl_cons]
    rcases List.mem_cons.mp h with rfl | hmem
    · exact kvGet_foldl_del_of_none _ _ _ (kvGet_kvDel_self _ _)
    · exact ih hmem _

/-- One `manageSectionCacheFIFO` call with some new ids leaves the section
list no longer than the cap. -/
theorem fifo_len_le (st : CacheState) (sect : String) (ids : List String) (K : Nat)
    (h : ids ≠ []) :
    (lsGet (manageSectionCacheFIFO st sect ids K).state.lists (sectionListKey sect)).length ≤ K := by
  have hne : ids.isEmpty = false := by
    cases ids with
    | nil => cases h rfl
    | cons a t => rfl
  unfold manageSectionCacheFIFO
  simp only [hne, Bool.false_eq_true, if_false]
  split
  · rename_i hlt
    simp only [lsGet_lsSet, List.length_drop]
    omega
  · rename_i hge
    simp only [lsGet_lsSet]
    omega

/-- Claim C2: after any run of FIFO calls with non-empty id lists the section
list stays within the cap, and every id a call evicts has its `article:{id}`
key deleted by that same call. -/
theorem manageSectionCacheFIFO_cap_and_cleanup (sect : String) (K : Nat) :
    (∀ (st : CacheState) (calls : List (List String)), calls ≠ [] →
      (∀ ids ∈ calls, ids ≠ []) →
      (lsGet (runFIFO st sect K calls).lists (sectionListKey sect)).length ≤ K) ∧
    (∀ (st : CacheState) (ids : List String), ids ≠ [] →
      ∀ i ∈ fifoEvicted st sect ids K,
        kvGet (manageSectionCacheFIFO st sect ids K).state.kv ("article:" ++ i) = none) := by
  constructor
  · intro st calls hne hall
    induction calls generalizing st with
    | nil => cases hne rfl
    | cons c rest ih =>
      cases rest with
      | nil =>
        exact fifo_len_le st sect c K (hall c (by simp))
      | cons c2 rest2 =>
        exact ih _ (by simp) (fun ids hm => hall ids (List.mem_cons_of_mem _ hm))
  · intro st ids hne i hi
    have hemp : ids.isEmpty = false := by
      cases ids with
      | nil => cases hne rfl
      | cons a t => rfl
    unfold fifoEvicted at hi
    unfold manageSectionCacheFIFO
    simp only [hemp, Bool.false_eq_true, if_false] at hi ⊢
    split
    · rename_i hlt
      rw [if_pos hlt] at hi
      exact kvGet_foldl_del_mem _ _ hi _
    · rename_i hge
      rw [if_neg hge] at hi
      cases hi

/-- Witness for C2 at a concrete run: two calls with cap 3. -/
theorem manageSectionCacheFIFO_cap_and_cleanup_witness :
    (lsGet (runFIFO ⟨[], []⟩ "tech" 3 [["a"], ["b", "c", "d"]]).lists
      (sectionListKey "tech")).length ≤ 3 :=
  (manageSectionCacheFIFO_cap_and_cleanup "tech" 3).1 ⟨[], []⟩ [["a"], ["b", "c", "d"]]
    (by simp) (by decide)

/-- Claim C10: from an empty section list, one call with `0 < |ids| ≤ K`
adds all ids, removes none, and `getSectionArticles` then returns them
newest-first. -/
theorem fifo_roundtrip (st : CacheState) (sect : String) (ids : List String) (K : Nat)
    (hempty : lsGet st.lists (sectionListKey sect) = [])
    (hne : ids ≠ []) (hlen : ids.length ≤ K) :
    (manageSectionCacheFIFO st sect ids K).added = ids.length ∧
    (manageSectionCacheFIFO st sect ids K).removed = 0 ∧
    getSectionArticles (manageSectionCacheFIFO st sect ids K).state sect K = ids.reverse := by
  have hemp : ids.isEmpty = false := by
    cases ids with
    | nil => cases hne rfl
    | cons a t => rfl
  have hK : K ≠ 0 := by
    cases ids with
    | nil => cases hne rfl
    | cons a t => simp at hlen; omega
  unfold manageSectionCacheFIFO
  simp only [hemp, Bool.false_eq_true, if_false, hempty, List.nil_append]
  rw [if_neg (by omega)]
  refine ⟨rfl, rfl, ?_⟩
  unfold getSectionArticles
  simp only [lsGet_lsSet]
  rw [if_neg hK]
  have : ids.length - K = 0 := by omega
  rw [this, List.drop_zero]

/-- Witness for C10: pushing two ids with cap 3 onto an empty list. -/
theorem fifo_roundtrip_witness :
    (manageSectionCacheFIFO ⟨[], []⟩ "tech" ["a", "b"] 3).added = 2 ∧
    (manageSectionCacheFIFO ⟨[], []⟩ "tech" ["a", "b"] 3).removed = 0 ∧
    getSectionArticles (manageSectionCacheFIFO ⟨[], []⟩ "tech" ["a", "b"] 3).state "tech" 3 =
      ["a", "b"].reverse :=
  fifo_roundtrip ⟨[], []⟩ "tech" ["a", "b"] 3 rfl (by simp) (by decide)

/-! ## C1: the fetcher persists only enriched articles -/

theorem generateAndSave_writes_enriched (gen : RawArticle → Option String)
    (sect : String) (st : FetchState) (raw : RawArticle)
    (h : ∀ a ∈ st.writes, a.aiCommentary ≠ "") :
    ∀ a ∈ (generateAndSave gen sect st raw).writes, a.aiCommentary ≠ "" := by
  cases hg : gen raw with
  | none => simp only [generateAndSave, hg]; exact h
  | some commentary =>
    simp only [generateAndSave, hg]
    by_cases hc : commentary = ""
    · rw [if_pos hc]; exact h
    · rw [if_neg hc]
      intro a ha
      rcases List.mem_append.mp ha with h1 | h2
      · exact h a h1
      · have : a = mkCompleteArticle raw sect commentary := by simpa using h2
        rw [this]
        simpa [mkCompleteArticle] using hc

theorem processRawArticle_writes_enriched (gen : RawArticle → Option String)
    (sect : String) (st : FetchState) (raw : RawArticle)
    (h : ∀ a ∈ st.writes, a.aiCommentary ≠ "") :
    ∀ a ∈ (processRawArticle gen sect st raw).writes, a.aiCommentary ≠ "" := by
  cases hf : findOneByUrl st.store raw.url with
  | none =>
    simp only [processRawArticle, hf]
    exact generateAndSave_writes_enriched gen sect st raw h
  | some exist =>
    simp only [processRawArticle, hf]
    by_cases he : exist.aiCommentary = ""
    · rw [if_pos he]; exact generateAndSave_writes_enriched gen sect st raw h
    · rw [if_neg he]; exact h

theorem foldl_writes_enriched (gen : RawArticle → Option String) (sect : String)
    (l : List RawArticle) : ∀ st : FetchState, (∀ a ∈ st.writes, a.aiCommentary ≠ "") →
    ∀ a ∈ (l.foldl (processRawArticle gen sect) st).writes, a.aiCommentary ≠ "" := by
  induction l with
  | nil => intro st h; exact h
  | cons r l ih =>
    intro st h
    simp only [List.foldl_cons]
    exact ih _ (processRawArticle_writes_enriched gen sect st r h)

/-- Claim C1: every document `fetchAndProcessSection` upserts carries a
non-empty `aiCommentary`, and an item whose url is already stored with
non-empty commentary leaves the state untouched. -/
theorem fetchAndProcessSection_persists_enriched
    (gen : RawArticle → Option String) (sect : String) :
    (∀ (store : List StoredArticle) (rawArticles : List RawArticle) (n : Nat),
      ∀ a ∈ (fetchAndProcessSection gen sect store rawArticles n).writes,
        a.aiCommentary ≠ "") ∧
    (∀ (st : FetchState) (raw : RawArticle) (exist : StoredArticle),
      findOneByUrl st.store raw.url = some exist → exist.aiCommentary ≠ "" →
      processRawArticle gen sect st raw = st) := by
  constructor
  · intro store rawArticles n
    exact foldl_writes_enriched gen sect _ _ (by intro a ha; cases ha)
  · intro st raw exist hfind hne
    simp only [processRawArticle, hfind]
    rw [if_neg hne]

/-- Witness for C1: a concrete raw item whose generated commentary is saved. -/
theorem fetchAndProcessSection_persists_enriched_witness :
    (mkCompleteArticle ⟨"", "T1", "A1", "http://x/1"⟩ "world" "comm").aiCommentary ≠ "" :=
  (fetchAndProcessSection_persists_enriched (fun _ => some "comm") "world").1
    [] [⟨"", "T1", "A1", "http://x/1"⟩] 1
    (mkCompleteArticle ⟨"", "T1", "A1", "http://x/1"⟩ "world" "comm") (by decide)

/-! ## C3: getOrSet fetch-invocation count and error propagation -/

/-- Counterexample to C3 as stated: when the fetch function throws, the
cache-layer catch block invokes it a second time. -/
theorem getOrSet_double_fetch_cex :
    (getOrSet (.ok none) (fun _ => .error "boom") (.ok ())).fetchCalls = 2 ∧
    ¬ (getOrSet (.ok none) (fun _ => .error "boom") (.ok ())).fetchCalls ≤ 1 := by
  exact ⟨rfl, by decide⟩

theorem getOrSetCatch_calls (fetchFn : Nat → Except String (Option String)) (n : Nat) :
    (getOrSetCatch fetchFn n).fetchCalls = n + 1 := by
  unfold getOrSetCatch
  cases fetchFn n <;> rfl

theorem getOrSetCatch_error (fetchFn : Nat → Except String (Option String)) (n : Nat)
    (e : String) (h : (getOrSetCatch fetchFn n).result = .error e) :
    fetchFn n = .error e := by
  unfold getOrSetCatch at h
  cases hf : fetchFn n with
  | error e2 => rw [hf] at h; cases h; rfl
  | ok v => rw [hf] at h; cases h

/-- Claim C3 amended: one `getOrSet` call invokes the fetch function at most
twice; at most once when its first invocation and the cache write succeed;
and any error the call surfaces is an error thrown by some invocation of the
fetch function, never a cache-layer error. -/
theorem getOrSet_fetch_bound (getR : Except String (Option String))
    (fetchFn : Nat → Except String (Option String)) (setexR : Except String Unit) :
    (getOrSet getR fetchFn setexR).fetchCalls ≤ 2 ∧
    (∀ v, fetchFn 0 = .ok v → setexR = .ok () →
      (getOrSet getR fetchFn setexR).fetchCalls ≤ 1) ∧
    (∀ e, (getOrSet getR fetchFn setexR).result = .error e →
      fetchFn 0 = .error e ∨ fetchFn 1 = .error e) := by
  refine ⟨?_, ?_, ?_⟩
  · cases getR with
    | error eg => simp only [getOrSet, getOrSetCatch_calls]; omega
    | ok og =>
      cases og with
      | some s => simp only [getOrSet]; omega
      | none =>
        cases hf : fetchFn 0 with
        | error e => simp only [getOrSet, hf, getOrSetCatch_calls]; omega
        | ok v =>
          cases v with
          | none => simp only [getOrSet, hf]; omega
          | some fresh =>
            cases setexR with
            | error es => simp only [getOrSet, hf, getOrSetCatch_calls]; omega
            | ok u => simp only [getOrSet, hf]; omega
  · intro v hv hs
    subst hs
    cases getR with
    | error eg => simp only [getOrSet, getOrSetCatch, hv]; omega
    | ok og =>
      cases og with
      | some s => simp only [getOrSet]; omega
      | none =>
        cases v with
        | none => simp only [getOrSet, hv]; omega
        | some fresh => simp only [getOrSet, hv]; omega
  · intro e
    unfold getOrSet
    cases getR with
    | error eg =>
      intro h
      exact Or.inl (getOrSetCatch_error fetchFn 0 e h)
    | ok og =>
      cases og with
      | some s => intro h; cases h
      | none =>
        cases hf : fetchFn 0 with
        | error e0 =>
          intro h
          exact Or.inr (getOrSetCatch_error fetchFn 1 e h)
        | ok v =>
          cases v with
          | none => intro h; cases h
          | some fresh =>
            cases setexR with
            | error es =>
              intro h
              exact Or.inr (getOrSetCatch_error fetchFn 1 e h)
            | ok u => intro h; cases h

/-- Witness for C3 amended: a throwing fetch function's error is the error
the call surfaces. -/
theorem getOrSet_fetch_bound_witness :
    (fun _ => (Except.error "boom" : Except String (Option String))) 0 = .error "boom" ∨
    (fun _ => (Except.error "boom" : Except String (Option String))) 1 = .error "boom" :=
  (getOrSet_fetch_bound (.ok none) (fun _ => .error "boom") (.ok ())).2.2 "boom" rfl

/-! ## C4, C5: the worker's terminal-failure handling -/

/-- Counterexample to C4 as stated: at terminal failure the handler returns
with the fallback source but its result's `success` field is `false`, not a
success marker. -/
theorem workerCatch_success_flag_cex :
    (workerCatchBlock "article-1" "world" "GROQ_ERROR: upstream 500" 2 3).toOption.map
      (fun r => (r.1.success, r.1.source)) = some (false, "fallback") := by
  rfl

/-- Claim C4 amended: when the handler catches an error whose message does not
contain RATE_LIMIT with attempts exhausted, then for every article id it
writes the deterministic fallback commentary to the cache under
`commentary:{articleId}` and returns normally with `source='fallback'` but
`success=false`; the store write (with `commentarySource='fallback'`) happens
exactly when the id does not start with `temp-`. -/
theorem workerCatch_terminal_fallback (articleId sect errMsg : String)
    (attemptsMade attempts : Nat)
    (hrl : strIncludes errMsg "RATE_LIMIT" = false)
    (hterm : attempts - 1 ≤ attemptsMade) :
    workerCatchBlock articleId sect errMsg attemptsMade attempts =
      .ok ({ success := false
             articleId := articleId
             commentary := (getFallbackCommentary sect).take 100 ++ "..."
             source := "fallback"
             error := errMsg },
           { storeWrite :=
               if strStartsWith articleId "temp-" then none
               else some ⟨articleId, getFallbackCommentary sect, "fallback"⟩
             cacheWrite := some ("commentary:" ++ articleId, getFallbackCommentary sect) }) := by
  unfold workerCatchBlock
  rw [hrl]
  simp only [Bool.false_eq_true, if_false]
  rw [if_pos hterm]

/-- Witness for C4 amended at a concrete terminal failure of a `temp-` id:
the cache write and the `success=false` fallback return still happen, while
the store write is skipped. -/
theorem workerCatch_terminal_fallback_witness :
    workerCatchBlock "temp-42" "world" "GROQ_ERROR: boom" 2 3 =
      .ok ({ success := false
             articleId := "temp-42"
             commentary := (getFallbackCommentary "world").take 100 ++ "..."
             source := "fallback"
             error := "GROQ_ERROR: boom" },
           { storeWrite :=
               if strStartsWith "temp-42" "temp-" then none
               else some ⟨"temp-42", getFallbackCommentary "world", "fallback"⟩
             cacheWrite := some ("commentary:temp-42", getFallbackCommentary "world") }) :=
  workerCatch_terminal_fallback "temp-42" "world" "GROQ_ERROR: boom" 2 3
    (by decide) (by decide)

/-- Counterexample to C5 as stated: the all-credentials-exhausted error
contains RATE_LIMIT, so even on the attempt at which attempts are exhausted
the handler re-raises instead of taking the fallback path. -/
theorem workerCatch_rate_limit_cex :
    workerCatchBlock "article-1" "world"
      "RATE_LIMIT_ALL_KEYS: All API keys have exhausted their daily limits" 2 3 =
    .error "Rate limit hit - will retry" := by
  rfl

/-- Claim C5 amended: any error whose message contains RATE_LIMIT (including
the all-keys-exhausted error) is re-raised by the handler on every attempt,
even the final one; the fallback path is never taken for it. -/
theorem workerCatch_rate_limit_reraise (articleId sect errMsg : String)
    (attemptsMade attempts : Nat)
    (h : strIncludes errMsg "RATE_LIMIT" = true) :
    workerCatchBlock articleId sect errMsg attemptsMade attempts =
      .error "Rate limit hit - will retry" := by
  unfold workerCatchBlock
  rw [h]
  simp

/-- Witness for C5 amended at the final attempt. -/
theorem workerCatch_rate_limit_reraise_witness :
    workerCatchBlock "article-1" "world"
      "RATE_LIMIT: Groq API rate limit exceeded" 2 3 =
    .error "Rate limit hit - will retry" :=
  workerCatch_rate_limit_reraise "article-1" "world"
    "RATE_LIMIT: Groq API rate limit exceeded" 2 3 (by decide)

/-! ## C9: the threshold gate -/

theorem lookupCount_nil (t : String) : lookupCount [] t = 0 := rfl

theorem lookupCount_cons (a : String) (b : Nat) (l : List (String × Nat)) (t : String) :
    lookupCount ((a, b) :: l) t = if a = t then b else lookupCount l t := by
  by_cases h : a = t <;> simp [lookupCount, List.find?_cons, h]

theorem lookupCount_bumpCount (acc : List (String × Nat)) (s t : String) :
    lookupCount (bumpCount acc s) t = lookupCount acc t + (if s = t then 1 else 0) := by
  induction acc with
  | nil =>
    by_cases h : s = t <;> simp [bumpCount, lookupCount_cons, lookupCount_nil, h]
  | cons p rest ih =>
    obtain ⟨a, b⟩ := p
    by_cases has : a = s
    · subst has
      simp only [bumpCount, beq_self_eq_true, if_true]
      by_cases hat : a = t <;> simp [lookupCount_cons, hat]
    · have : (a == s) = false := by simp [has]
      simp only [bumpCount, this, Bool.false_eq_true, if_false]
      by_cases hat : a = t
      · subst hat
        have : s ≠ a := fun hs => has hs.symm
        simp [lookupCount_cons, this]
      · simp [lookupCount_cons, hat, ih]

theorem lookupCount_foldl (l : List StoredArticle) (t : String) :
    ∀ acc : List (String × Nat),
      lookupCount (l.foldl (fun acc a => bumpCount acc a.sect) acc) t =
        lookupCount acc t + l.countP (fun a => a.sect == t) := by
  induction l with
  | nil => intro acc; simp
  | cons a l ih =>
    intro acc
    simp only [List.foldl_cons, List.countP_cons, ih, lookupCount_bumpCount]
    by_cases h : a.sect = t
    · simp only [h, beq_self_eq_true, if_true, if_pos]
      omega
    · simp [h]

theorem lookupCount_aggregate (articles : List StoredArticle) (t : String) :
    lookupCount (aggregateCounts articles) t =
      (articles.filter (fun a => a.aiCommentary != "")).countP (fun a => a.sect == t) := by
  unfold aggregateCounts
  rw [lookupCount_foldl]
  simp [lookupCount_nil]

/-- Claim C9: `checkThreshold` reports the gate open exactly when every
section of the fixed nine-section list has at least 8 enriched articles
(a section absent from the aggregate counting as 0). -/
theorem checkThreshold_met_iff (articles : List StoredArticle) :
    (checkThreshold articles).thresholdMet = true ↔
      ∀ s ∈ SECTIONS,
        THRESHOLD_PER_SECTION ≤
          (articles.filter (fun a => a.aiCommentary != "")).countP
            (fun a => a.sect == s) := by
  unfold checkThreshold
  simp [List.all_eq_true, lookupCount_aggregate]

/-- Witness for C9 (no hypotheses): the gate stays closed on an empty store. -/
theorem checkThreshold_met_iff_witness :
    (checkThreshold []).thresholdMet = false := by
  have h := checkThreshold_met_iff []
  by_cases hmet : (checkThreshold []).thresholdMet = true
  · have := h.mp hmet "world" (by decide)
    simp [THRESHOLD_PER_SECTION] at this
  · simpa using hmet

/-! ## Load balancer lemmas -/

theorem clientEligible_iff (c : GroqClient) :
    clientEligible c = true ↔
      c.isAvailable = true ∧ c.tokensUsed < c.dailyLimit - 5000 := by
  simp [clientEligible]

theorem findEligible_sound (clients : List GroqClient) :
    ∀ fuel idx i, findEligibleFrom clients idx fuel = some i →
      ∃ c, clients[i]? = some c ∧ clientEligible c = true := by
  intro fuel
  induction fuel with
  | zero => intro idx i h; cases h
  | succ fuel ih =>
    intro idx i h
    cases hc : clients[idx]? with
    | none => simp only [findEligibleFrom, hc] at h; cases h
    | some c =>
      simp only [findEligibleFrom, hc] at h
      by_cases he : clientEligible c
      · rw [if_pos he] at h
        cases h
        exact ⟨c, hc, he⟩
      · rw [if_neg he] at h
        exact ih _ _ h

theorem findEligible_none_forall (clients : List GroqClient) :
    ∀ fuel idx, idx < clients.length →
      findEligibleFrom clients idx fuel = none →
      ∀ k, k < fuel → ∀ c, clients[(idx + k) % clients.length]? = some c →
        clientEligible c = false := by
  intro fuel
  induction fuel with
  | zero =>
    intro idx _ _ k hk
    exact absurd hk (by omega)
  | succ fuel ih =>
    intro idx hidx hnone k hk c hc
    have hn : 0 < clients.length := by omega
    obtain ⟨c0, hc0⟩ : ∃ c0, clients[idx]? = some c0 :=
      ⟨clients[idx], List.getElem?_eq_getElem hidx⟩
    simp only [findEligibleFrom, hc0] at hnone
    by_cases he : clientEligible c0
    · rw [if_pos he] at hnone; cases hnone
    · rw [if_neg he] at hnone
      cases k with
      | zero =>
        have hidxeq : (idx + 0) % clients.length = idx := by
          rw [Nat.add_zero, Nat.mod_eq_of_lt hidx]
        rw [hidxeq, hc0] at hc
        cases hc
        simpa using he
      | succ k =>
        have harg :
            clients[((idx + 1) % clients.length + k) % clients.length]? = some c := by
          rw [Nat.mod_add_mod]
          have heq : idx + 1 + k = idx + (k + 1) := by omega
          rw [heq]
          exact hc
        exact ih ((idx + 1) % clients.length) (Nat.mod_lt _ hn) hnone k (by omega) c harg

theorem findEligible_some_of_exists (clients : List GroqClient) (idx : Nat)
    (hidx : idx < clients.length)
    (hex : ∃ c ∈ clients, clientEligible c = true) :
    ∃ i, findEligibleFrom clients idx clients.length = some i := by
  cases hr : findEligibleFrom clients idx clients.length with
  | some i => exact ⟨i, rfl⟩
  | none =>
    exfalso
    obtain ⟨c, hc, he⟩ := hex
    obtain ⟨j, hj⟩ := List.mem_iff_getElem?.mp hc
    have hjlt : j < clients.length := by
      by_contra hcon
      rw [List.getElem?_eq_none (by omega)] at hj
      cases hj
    have hn : 0 < clients.length := by omega
    obtain ⟨k, hk1, hk2⟩ : ∃ k, k < clients.length ∧ (idx + k) % clients.length = j := by
      by_cases hij : idx ≤ j
      · refine ⟨j - idx, by omega, ?_⟩
        rw [show idx + (j - idx) = j from by omega, Nat.mod_eq_of_lt hjlt]
      · refine ⟨j + clients.length - idx, by omega, ?_⟩
        rw [show idx + (j + clients.length - idx) = j + clients.length from by omega,
          Nat.add_mod_right, Nat.mod_eq_of_lt hjlt]
    have harg : clients[(idx + k) % clients.length]? = some c := by rw [hk2]; exact hj
    have hfalse := findEligible_none_forall clients clients.length idx hidx hr k hk1 c harg
    rw [he] at hfalse
    cases hfalse

theorem findEligible_none_of_all (clients : List GroqClient)
    (hall : ∀ c ∈ clients, clientEligible c = false) :
    ∀ fuel idx, findEligibleFrom clients idx fuel = none := by
  intro fuel
  induction fuel with
  | zero => intro idx; rfl
  | succ fuel ih =>
    intro idx
    cases hc : clients[idx]? with
    | none => simp only [findEligibleFrom, hc]
    | some c =>
      simp only [findEligibleFrom, hc]
      rw [if_neg (by simp [hall c (List.getElem?_mem hc)])]
      exact ih _

theorem getClient_snd_lt (b : GroqBalancer) (hwf : b.currentIndex < b.clients.length) :
    (getClient b).2 < b.clients.length := by
  unfold getClient
  cases h : findEligibleFrom b.clients b.currentIndex b.clients.length with
  | some i =>
    simp only [h]
    exact Nat.mod_lt _ (by omega)
  | none => simpa [h] using hwf

theorem getClient_fst_some (b : GroqBalancer) (hn : 0 < b.clients.length) :
    ∃ c, b.clients[(getClient b).1]? = some c := by
  unfold getClient
  cases h : findEligibleFrom b.clients b.currentIndex b.clients.length with
  | some i =>
    obtain ⟨c, hc, _⟩ := findEligible_sound b.clients _ _ _ h
    exact ⟨c, by simp only [h]; exact hc⟩
  | none =>
    simp only [h]
    exact ⟨b.clients[0], List.getElem?_eq_getElem hn⟩

theorem setClient_length (clients : List GroqClient) (i : Nat)
    (f : GroqClient → GroqClient) :
    (setClient clients i f).length = clients.length := by
  unfold setClient
  cases h : clients[i]? with
  | none => rfl
  | some c => simp

theorem setClient_mem (clients : List GroqClient) (i : Nat)
    (f : GroqClient → GroqClient) (ci : GroqClient) (hci : clients[i]? = some ci) :
    ∀ a ∈ setClient clients i f, a ∈ clients ∨ a = f ci := by
  intro a ha
  unfold setClient at ha
  rw [hci] at ha
  exact List.mem_or_eq_of_mem_set ha

theorem dispatch_step_preserves (b : GroqBalancer) (first retry : CallOutcome)
    (hwf : b.currentIndex < b.clients.length)
    (hq : ∀ c ∈ b.clients, c.tokensUsed ≤ c.dailyLimit)
    (hs : StepSafe b (first, retry)) :
    (createChatCompletion b first retry).1.currentIndex <
      (createChatCompletion b first retry).1.clients.length ∧
    ∀ c ∈ (createChatCompletion b first retry).1.clients,
      c.tokensUsed ≤ c.dailyLimit := by
  have hn : 0 < b.clients.length := by omega
  cases first with
  | success t =>
    simp only [StepSafe] at hs
    obtain ⟨hex, husage⟩ := hs
    obtain ⟨i, hfind⟩ := findEligible_some_of_exists b.clients b.currentIndex hwf hex
    obtain ⟨c0, hc0, he0⟩ := findEligible_sound b.clients _ _ _ hfind
    have hgc : getClient b = (i, (i + 1) % b.clients.length) := by
      unfold getClient; rw [hfind]
    simp only [createChatCompletion, hgc, hc0]
    constructor
    · rw [setClient_length]
      exact Nat.mod_lt _ hn
    · intro c hcmem
      rcases setClient_mem b.clients i _ c0 hc0 c hcmem with h1 | h2
      · exact hq c h1
      · subst h2
        obtain ⟨_, hlt⟩ := (clientEligible_iff c0).mp he0
        simp only
        omega
  | rateLimited msg =>
    obtain ⟨client, hclient⟩ := getClient_fst_some b hn
    have hmlen :
        (setClient b.clients (getClient b).1
          (fun c => { c with isAvailable := false })).length = b.clients.length :=
      setClient_length _ _ _
    have hq2 :
        ∀ c ∈ setClient b.clients (getClient b).1
          (fun c => { c with isAvailable := false }),
          c.tokensUsed ≤ c.dailyLimit := by
      intro c hc
      rcases setClient_mem b.clients _ _ client hclient c hc with h1 | h2
      · exact hq c h1
      · subst h2
        exact hq client (List.getElem?_mem hclient)
    have hb2wf :
        ({ clients := setClient b.clients (getClient b).1
             (fun c => { c with isAvailable := false })
           currentIndex := (getClient b).2 : GroqBalancer }).currentIndex <
        ({ clients := setClient b.clients (getClient b).1
             (fun c => { c with isAvailable := false })
           currentIndex := (getClient b).2 : GroqBalancer }).clients.length := by
      simp only [hmlen]
      exact getClient_snd_lt b hwf
    have hqsnd :=
      getClient_snd_lt
        { clients := setClient b.clients (getClient b).1
            (fun c => { c with isAvailable := false })
          currentIndex := (getClient b).2 } hb2wf
    simp only [createChatCompletion, hclient]
    cases hnext :
        (setClient b.clients (getClient b).1
          (fun c => { c with isAvailable := false }))[(getClient
            { clients := setClient b.clients (getClient b).1
                (fun c => { c with isAvailable := false })
              currentIndex := (getClient b).2 : GroqBalancer }).1]? with
    | none =>
      simp only [hnext]
      refine ⟨?_, hq2⟩
      simpa [hmlen] using hqsnd
    | some nextClient =>
      simp only [hnext]
      by_cases hid : nextClient.id = client.id
      · rw [if_pos hid]
        refine ⟨?_, hq2⟩
        simpa [hmlen] using hqsnd
      · rw [if_neg hid]
        cases retry <;>
          exact ⟨by simpa [hmlen] using hqsnd, hq2⟩
  | otherFailure m =>
    obtain ⟨client, hclient⟩ := getClient_fst_some b hn
    simp only [createChatCompletion, hclient]
    exact ⟨getClient_snd_lt b hwf, hq⟩

/-! ## C6: quota safety of the dispatch loop -/

/-- A one-credential pool already at 99000/100000 tokens. -/
def singleKeyNearLimit : GroqBalancer := ⟨[⟨1, 99000, 100000, true⟩], 0⟩

/-- Counterexample to C6 as stated: with every credential at capacity the
all-exhausted fallback still dispatches on `clients[0]`, and a successful
5000-token response pushes its counter to 104000, past the 100000 daily
limit. -/
theorem quota_exceeded_cex :
    ((createChatCompletion singleKeyNearLimit (.success 5000) (.success 0)).1.clients.map
      (fun c => c.tokensUsed)) = [104000] ∧
    ((createChatCompletion singleKeyNearLimit (.success 5000) (.success 0)).1.clients.any
      (fun c => decide (c.dailyLimit < c.tokensUsed))) = true := by
  decide

/-- Claim C6 amended: `tokensUsed` stays within `dailyLimit` across any
dispatch sequence provided each successful call's tracked usage
(`total_tokens`, or 600 when absent) is at most 5000 and some credential is
still eligible at each successful call; without those provisos the counter
can pass the limit. -/
theorem dispatch_quota_safety (b : GroqBalancer) (steps : List (CallOutcome × CallOutcome))
    (hwf : b.currentIndex < b.clients.length)
    (hq : ∀ c ∈ b.clients, c.tokensUsed ≤ c.dailyLimit)
    (hsafe : SafeRun b steps) :
    ∀ c ∈ (runDispatches b steps).clients, c.tokensUsed ≤ c.dailyLimit := by
  induction steps generalizing b with
  | nil => exact hq
  | cons s rest ih =>
    obtain ⟨h1, h2⟩ := hsafe
    obtain ⟨hwf2, hq2⟩ := dispatch_step_preserves b s.1 s.2 hwf hq h1
    exact ih _ hwf2 hq2 h2

/-- Witness for C6 amended: one safe dispatch on a fresh credential. -/
theorem dispatch_quota_safety_witness :
    (⟨1, 600, 100000, true⟩ : GroqClient).tokensUsed ≤
      (⟨1, 600, 100000, true⟩ : GroqClient).dailyLimit :=
  dispatch_quota_safety ⟨[⟨1, 0, 100000, true⟩], 0⟩ [(.success 600, .success 0)]
    (by decide) (by decide)
    ⟨⟨by decide, by decide⟩, trivial⟩
    ⟨1, 600, 100000, true⟩ (by decide)

/-! ## C7: the eligibility margin -/

/-- An available credential at 96000/100000 tokens: inside the margin the
spec claims (limit − 1600) but outside the code's margin (limit − 5000). -/
def marginClient : GroqClient := ⟨1, 96000, 100000, true⟩

/-- Counterexample to C7 as stated: `marginClient` satisfies the claimed
eligibility bound (`tokensUsed < dailyLimit − 1600`), yet the code's check
rejects it and selection skips it. -/
theorem eligibility_margin_cex :
    specEligible marginClient = true ∧
    clientEligible marginClient = false ∧
    findEligibleFrom [marginClient] 0 1 = none := by
  decide

/-- Claim C7 amended: selection skips a credential exactly when it is
unavailable or `tokensUsed ≥ dailyLimit − 5000` (a flat 5000-token margin,
not the spec's 600 + 1000): every index selection returns satisfies the
code's bound, and a credential satisfying it is taken on the spot. -/
theorem getClient_eligibility (clients : List GroqClient) :
    (∀ fuel idx i, findEligibleFrom clients idx fuel = some i →
      ∃ c, clients[i]? = some c ∧ c.isAvailable = true ∧
        c.tokensUsed < c.dailyLimit - 5000) ∧
    (∀ idx c fuel, clients[idx]? = some c → c.isAvailable = true →
      c.tokensUsed < c.dailyLimit - 5000 → fuel ≠ 0 →
      findEligibleFrom clients idx fuel = some idx) := by
  constructor
  · intro fuel idx i h
    obtain ⟨c, hc, he⟩ := findEligible_sound clients fuel idx i h
    exact ⟨c, hc, (clientEligible_iff c).mp he⟩
  · intro idx c fuel hc havail hlt hfuel
    cases fuel with
    | zero => cases hfuel rfl
    | succ fuel =>
      have he : clientEligible c = true := (clientEligible_iff c).mpr ⟨havail, hlt⟩
      simp only [findEligibleFrom, hc]
      rw [if_pos he]

/-- Witness for C7 amended: a fresh available credential is selected
immediately. -/
theorem getClient_eligibility_witness :
    findEligibleFrom [⟨1, 0, 100000, true⟩] 0 1 = some 0 :=
  (getClient_eligibility [⟨1, 0, 100000, true⟩]).2 0 ⟨1, 0, 100000, true⟩ 1
    (by decide) (by decide) (by decide) (by decide)

/-! ## C8: behavior when every credential is exhausted -/

/-- Two-credential pool with no eligible credential; the second one has far
lower usage than the first. -/
def exhaustedPool : GroqBalancer :=
  ⟨[⟨1, 99000, 100000, true⟩, ⟨2, 50, 100000, false⟩], 0⟩

/-- Counterexample to C8 as stated: with no eligible credential, selection
returns index 0 (usage 99000) even though the credential at index 1 has the
least usage (50). -/
theorem exhausted_fallback_cex :
    exhaustedPool.clients.all (fun c => !clientEligible c) = true ∧
    getClient exhaustedPool = (0, 0) ∧
    (exhaustedPool.clients[0]?).map (fun c => c.tokensUsed) = some 99000 ∧
    (exhaustedPool.clients[1]?).map (fun c => c.tokensUsed) = some 50 := by
  decide

/-- Claim C8 amended: when no credential is eligible, `getClient` returns the
first credential (`clients[0]`) regardless of usage, and the
RATE_LIMIT_ALL_KEYS error is surfaced by a dispatch whose primary call
rate-limits and whose failover selection lands on the same credential id. -/
theorem getClient_exhausted_first :
    (∀ b : GroqBalancer, (∀ c ∈ b.clients, clientEligible c = false) →
      getClient b = (0, b.currentIndex)) ∧
    (∀ (b : GroqBalancer) (msg : String) (retry : CallOutcome),
      failoverSameId b = true →
      (createChatCompletion b (.rateLimited msg) retry).2 =
        .error "RATE_LIMIT_ALL_KEYS: All API keys have hit their rate limits") := by
  constructor
  · intro b hall
    simp only [getClient, findEligible_none_of_all b.clients hall]
  · intro b msg retry h
    unfold failoverSameId at h
    cases hclient : b.clients[(getClient b).1]? with
    | none => simp only [hclient] at h; cases h
    | some client =>
      simp only [hclient] at h
      cases hnext :
          (setClient b.clients (getClient b).1
            (fun c => { c with isAvailable := false }))[(getClient
              { clients := setClient b.clients (getClient b).1
                  (fun c => { c with isAvailable := false })
                currentIndex := (getClient b).2 : GroqBalancer }).1]? with
      | none => simp only [hnext] at h; cases h
      | some nextClient =>
        simp only [hnext] at h
        have hid : nextClient.id = client.id := by
          simpa using h
        simp only [createChatCompletion, hclient, hnext]
        rw [if_pos hid]

/-- Witness for C8 amended: a single available credential rate-limits, the
failover re-selects it, and the all-keys error surfaces. -/
theorem getClient_exhausted_first_witness :
    (createChatCompletion ⟨[⟨1, 0, 100000, true⟩], 0⟩ (.rateLimited "429") (.success 0)).2 =
      .error "RATE_LIMIT_ALL_KEYS: All API keys have hit their rate limits" :=
  getClient_exhausted_first.2 ⟨[⟨1, 0, 100000, true⟩], 0⟩ "429" (.success 0) (by decide)

end Webstory
